import Mathlib

/-!
Shallow embedding of `whispr.py` (volume computation and well allocation for an
acoustic liquid-dispensing instrument).

Real numbers of the Python source (floats) are modelled as rationals `ℚ`;
Python's `round` (banker's rounding, half to even) is modelled exactly by
`pyRound`.  Fallible code (Python `raise`) is modelled with `Except Err`.
Pandas lookup failures (`IndexError`/`KeyError`) are modelled by
`Err.indexError`, an unbound Python local by `Err.nameUnbound`, and a `raise`
statement whose message construction itself crashes on `str + float`
concatenation by `Err.typeError`.
-/

attribute [local semireducible] Rat.add Rat.mul Rat.sub Rat.inv Rat.ofScientific

deriving instance DecidableEq for Except

/-- Source plate calibration profile; the code dispatches on the substrings
`'LDV'` and `'384PP'` of the plate-type string. -/
inductive PlateType where
  | LDV
  | P384PP
deriving DecidableEq, Repr

/-- The run-aborting failures of `whispr.py`.  `rangeAbove`/`rangeBelow` are the
two `NameError`s of `checkInputs`; `sourceExhausted` is the `NameError` of
`writeProtocol` naming the reagent; `indexError` models an out-of-range /
missing-key pandas access; `nameUnbound` models a Python unbound-local error;
`typeError` models the `str + float` crash at line 99. -/
inductive Err where
  | rangeAbove
  | rangeBelow
  | indexError
  | nameUnbound
  | typeError
  | sourceExhausted (label : String)
deriving DecidableEq, Repr

/-- Whether an error is one of the two volume-range errors of `checkInputs`. -/
def Err.isRangeError : Err → Bool
  | .rangeAbove => true
  | .rangeBelow => true
  | _ => false

/-- Whether an error is the named source-exhaustion error (carrying the
reagent label). -/
def Err.isSourceExhausted : Err → Bool
  | .sourceExhausted _ => true
  | _ => false

/-- Python's built-in `round` with no digit argument: round half to even,
returning an integer. -/
def pyRound (q : ℚ) : ℤ :=
  if q - q.floor < 1/2 then q.floor
  else if 1/2 < q - q.floor then q.floor + 1
  else if q.floor % 2 = 0 then q.floor else q.floor + 1

/-- Python's `round(x, prec)`: round half to even at `prec` decimal digits. -/
def pyRoundTo (x : ℚ) (prec : ℕ) : ℚ :=
  (pyRound (x * 10 ^ prec) : ℚ) / 10 ^ prec

/-- `myround` from whispr.py line 5: `round(base * round(float(x)/base), prec)`
with `prec = 3` and `base = .025`; rounds to the nearest 0.025 increment. -/
def myround (x : ℚ) : ℚ :=
  pyRoundTo ((25/1000) * (pyRound (x / (25/1000)) : ℚ)) 3

/-- A row of the source plate dataframe.  `key` is the dataframe index by which
the mixing-table columns address the entry (`source_plate_df.loc[column]`),
`label` is its `Label` column, `wells` the comma-split `Well` field, and
`volumes` the comma-split `Volume` field. -/
structure SourceEntry where
  key : String
  label : String
  wells : List String
  concentration : ℚ
  volumes : List ℚ
deriving DecidableEq, Repr

/-- Lower volume bound set by `checkInputs` lines 28-36. -/
def checkVolMin : PlateType → ℚ
  | .LDV => 9/2
  | .P384PP => 20

/-- Upper volume bound set by `checkInputs` lines 28-36. -/
def checkVolMax : PlateType → ℚ
  | .LDV => 14
  | .P384PP => 65

/-- `checkInputs` from whispr.py lines 8-51: flatten all declared volumes
(comma-separated multi-well entries already split into the `volumes` list) and
fail if any is above the maximum or below the minimum for the plate type. -/
def checkInputs (source_plate : List SourceEntry) (plate_type : PlateType) :
    Except Err Unit :=
  let vol := (source_plate.map (fun e => e.volumes)).flatten
  if vol.any (fun v => decide (checkVolMax plate_type < v)) then
    .error .rangeAbove
  else if vol.any (fun v => decide (v < checkVolMin plate_type)) then
    .error .rangeBelow
  else .ok ()

theorem ratFloor_eq_floor (q : ℚ) : q.floor = ⌊q⌋ :=
  (Rat.floor_def' q).trans Rat.floor_def.symm

theorem pyRound_intCast (n : ℤ) : pyRound (n : ℚ) = n := by
  simp [pyRound, ratFloor_eq_floor, Int.floor_intCast]

theorem myround_eq (x : ℚ) : myround x = (pyRound (40 * x) : ℚ) / 40 := by
  have h1 : x / (25/1000) = 40 * x := by ring
  have h2 : (25/1000 : ℚ) * (pyRound (40 * x) : ℚ) * 10 ^ 3 =
      ((25 * pyRound (40 * x) : ℤ) : ℚ) := by push_cast; ring
  rw [myround, pyRoundTo, h1, h2, pyRound_intCast]
  push_cast
  ring

/-- C8: the quantizer is idempotent: for every non-negative `x`,
`myround (myround x) = myround x` (`myround x` is the nearest multiple of
0.025 rounded to 3 decimal digits, so re-quantizing it is the identity). -/
theorem myround_idempotent (x : ℚ) (hx : 0 ≤ x) :
    myround (myround x) = myround x := by
  rw [myround_eq x, myround_eq]
  have h : (40 : ℚ) * ((pyRound (40 * x) : ℚ) / 40) = (pyRound (40 * x) : ℚ) := by
    ring
  rw [h, pyRound_intCast]

/-- Witness for C8 at `x = 1/3`. -/
theorem myround_idempotent_witness :
    (0 ≤ (1/3 : ℚ)) ∧ myround (myround (1/3)) = myround (1/3) :=
  ⟨by norm_num, myround_idempotent (1/3) (by norm_num)⟩

/-- C9: `checkInputs` fails, and fails with one of the two range errors,
exactly when some declared stock volume is strictly above the plate type's
maximum or strictly below its minimum; the bounds are `(4.5, 14)` for LDV and
`(20, 65)` for 384PP plate types. -/
theorem checkInputs_range_iff (src : List SourceEntry) (pt : PlateType) :
    ((∃ er, checkInputs src pt = .error er ∧ er.isRangeError = true) ↔
      (∃ v ∈ (src.map (fun e => e.volumes)).flatten,
        checkVolMax pt < v ∨ v < checkVolMin pt)) ∧
    (checkInputs src pt = .ok () ↔
      ∀ v ∈ (src.map (fun e => e.volumes)).flatten,
        checkVolMin pt ≤ v ∧ v ≤ checkVolMax pt) ∧
    checkVolMin .LDV = 9/2 ∧ checkVolMax .LDV = 14 ∧
    checkVolMin .P384PP = 20 ∧ checkVolMax .P384PP = 65 := by
  refine ⟨?_, ?_, rfl, rfl, rfl, rfl⟩
  · unfold checkInputs
    constructor
    · intro ⟨er, her, _⟩
      by_cases h1 : ((src.map (fun e => e.volumes)).flatten).any
          (fun v => decide (checkVolMax pt < v))
      · simp only [List.any_eq_true, decide_eq_true_eq] at h1
        obtain ⟨v, hv, hlt⟩ := h1
        exact ⟨v, hv, Or.inl hlt⟩
      · by_cases h2 : ((src.map (fun e => e.volumes)).flatten).any
            (fun v => decide (v < checkVolMin pt))
        · simp only [List.any_eq_true, decide_eq_true_eq] at h2
          obtain ⟨v, hv, hlt⟩ := h2
          exact ⟨v, hv, Or.inr hlt⟩
        · simp only [h1, h2, if_false] at her
          cases her
    · intro ⟨v, hv, hor⟩
      by_cases h1 : ((src.map (fun e => e.volumes)).flatten).any
          (fun v => decide (checkVolMax pt < v))
      · exact ⟨.rangeAbove, by simp [h1], rfl⟩
      · have h2 : ((src.map (fun e => e.volumes)).flatten).any
            (fun v => decide (v < checkVolMin pt)) := by
          simp only [List.any_eq_true, decide_eq_true_eq] at h1 ⊢
          rcases hor with hor | hor
          · exact absurd ⟨v, hv, hor⟩ h1
          · exact ⟨v, hv, hor⟩
        exact ⟨.rangeBelow, by simp [h1, h2], rfl⟩
  · unfold checkInputs
    constructor
    · intro hok v hv
      by_cases h1 : ((src.map (fun e => e.volumes)).flatten).any
          (fun v => decide (checkVolMax pt < v))
      · simp [h1] at hok
      · by_cases h2 : ((src.map (fun e => e.volumes)).flatten).any
            (fun v => decide (v < checkVolMin pt))
        · simp [h1, h2] at hok
        · simp only [List.any_eq_true, decide_eq_true_eq, not_exists, not_and,
            not_lt] at h1 h2
          exact ⟨h2 v hv, h1 v hv⟩
    · intro hall
      have h1 : ((src.map (fun e => e.volumes)).flatten).any
          (fun v => decide (checkVolMax pt < v)) = false := by
        simp only [List.any_eq_false, decide_eq_true_eq]
        intro v hv
        exact not_lt.mpr (hall v hv).2
      have h2 : ((src.map (fun e => e.volumes)).flatten).any
          (fun v => decide (v < checkVolMin pt)) = false := by
        simp only [List.any_eq_false, decide_eq_true_eq]
        intro v hv
        exact not_lt.mpr (hall v hv).1
      simp [h1, h2]

/-- Witness for C9: a declared source volume of 70 on a 384PP plate is above
the maximum 65 and makes `checkInputs` fail with a range error. -/
theorem checkInputs_range_iff_witness :
    ∃ er, checkInputs [⟨"k1", "A", ["W1"], 100, [70]⟩] .P384PP = .error er ∧
      er.isRangeError = true :=
  (checkInputs_range_iff [⟨"k1", "A", ["W1"], 100, [70]⟩] .P384PP).1.2
    ⟨70, by decide, by norm_num [checkVolMax]⟩

/-- Descending stable sort, modelling
`sort_values(ascending = False)` on a pandas Series. -/
def sortDesc (l : List ℚ) : List ℚ :=
  List.insertionSort (fun a b => b ≤ a) l

/-- The concentration-fallback loop of `generateVolumeTable` lines 85-91,
walking the descending-sorted concentrations for one reagent column: take the
first entry whose quantized volume `myround (10 * target / c)` is nonzero
(for a positive target), or the very first entry when the target is 0; walking
past the end of the list is a plain pandas positional-indexing failure. -/
def resolveLoop (target : ℚ) : List ℚ → Except Err (ℚ × ℚ)
  | [] => .error .indexError
  | c :: rest =>
    if 0 < target ∧ myround (10 * target / c) = 0 then resolveLoop target rest
    else .ok (c, myround (10 * target / c))

/-- The Series `source_plate_df.loc[column]['Concentration']`: the
concentrations of the source entries addressed by `column`, in declaration
order. -/
def concsOf (src : List SourceEntry) (column : String) : List ℚ :=
  (src.filter (fun e => e.key == column)).map (fun e => e.concentration)

/-- Concentration resolution for one mixing-table column: sort the
concentrations of the entries addressed by `column` descending and run the
fallback loop.  Returns the chosen concentration and quantized volume. -/
def resolve (src : List SourceEntry) (column : String) (target : ℚ) :
    Except Err (ℚ × ℚ) :=
  resolveLoop target (sortDesc (concsOf src column))

/-- Line 93 of whispr.py: the `Label` of the (first) source entry whose
concentration equals the resolved one among the rows addressed by `column`. -/
def labelFor (src : List SourceEntry) (column : String) (c : ℚ) :
    Option String :=
  (src.find? (fun e => e.concentration == c && e.key == column)).map
    (fun e => e.label)

/-- One row of the volume table: the reaction identifier stored in the `Label`
column, and the cells that have been assigned so far (unassigned pandas cells
are `NaN` and are absent from this association list). -/
structure Row where
  label : String
  cells : List (String × ℚ)
deriving DecidableEq, Repr

/-- The volume table dataframe: `cols` is the column list after the leading
`Label` column (initially the source plate's `Label` values; pandas appends a
new column when a masked assignment targets an unknown column). -/
structure VolTable where
  cols : List String
  rows : List Row
deriving DecidableEq, Repr

/-- Assign one cell of a row: replace the value if the column is already
present, otherwise append it (an absent cell is pandas `NaN`).  One cell per
column name models the pandas columns faithfully when the source labels are
pairwise distinct; a duplicate-label inventory would give the real table
duplicate columns, which this association list cannot represent (and whose
`append`/masked-write behaviour is pandas-version-dependent), so the closure
theorem below restricts to pairwise-distinct labels. -/
def cellSet (cells : List (String × ℚ)) (col : String) (v : ℚ) :
    List (String × ℚ) :=
  if cells.any (fun p => p.1 == col) then
    cells.map (fun p => if p.1 == col then (col, v) else p)
  else cells ++ [(col, v)]

/-- A masked assignment `df.loc[df['Label'] == rowLabel, col] = v`: update the
cell in every row whose `Label` equals `rowLabel`, and add the column to the
column list if it is new.  Faithful under the same pairwise-distinct-label
regime as `cellSet`. -/
def setCell (t : VolTable) (rowLabel col : String) (v : ℚ) : VolTable :=
  ⟨if t.cols.contains col then t.cols else t.cols ++ [col],
   t.rows.map (fun r =>
     if r.label == rowLabel then ⟨r.label, cellSet r.cells col v⟩ else r)⟩

/-- `vol_table_df.append({'Label': row}, ignore_index = True)`: a fresh row
holding only the reaction identifier, all other cells `NaN`. -/
def appendRow (t : VolTable) (rowLabel : String) : VolTable :=
  ⟨t.cols, t.rows ++ [⟨rowLabel, []⟩]⟩

/-- Read a cell; an absent (`NaN`) cell reads as 0, matching the fact that the
only consumer guards every use with `transfer_vol > 0`, which is false for
`NaN` exactly as it is for 0. -/
def getCell (cells : List (String × ℚ)) (col : String) : ℚ :=
  ((cells.find? (fun p => p.1 == col)).map (fun p => p.2)).getD 0

/-- Sum of the assigned reagent cells of a row (every column except the
diluent column `Water`). -/
def cellsSum (cells : List (String × ℚ)) : ℚ :=
  ((cells.filter (fun p => !(p.1 == "Water"))).map (fun p => p.2)).sum

/-- The diluent cell of a row (0 when not yet assigned). -/
def waterVal (cells : List (String × ℚ)) : ℚ :=
  getCell cells "Water"

/-- The inner loop of `generateVolumeTable` (lines 83-96): for each mixing
column resolve a concentration and volume, look up the resolved entry's label,
record the volume in the current reaction's row under that label, and
accumulate the reaction's total volume.  The `last` component carries the
Python locals `label`, `column`, `vol_to_add` that survive the loop and are
used by line 103. -/
def processCols (src : List SourceEntry) (rowLabel : String) :
    List (String × ℚ) → VolTable → ℚ → Option (String × String × ℚ) →
    Except Err (VolTable × ℚ × Option (String × String × ℚ))
  | [], t, vol, last => .ok (t, vol, last)
  | (column, conc) :: rest, t, vol, _last =>
    match resolve src column conc with
    | .error e => .error e
    | .ok (c, v) =>
      match labelFor src column c with
      | none => .error .indexError
      | some l =>
        processCols src rowLabel rest (setCell t rowLabel l v) (vol + v)
          (some (l, column, v))

/-- The per-column resolution results of one reaction row, in column order:
`(column, resolved label, quantized volume)` triples.  This is the same
computation as `processCols` with the table updates stripped, used to state
what `processCols` does. -/
def resolvedCols (src : List SourceEntry) :
    List (String × ℚ) → Except Err (List (String × String × ℚ))
  | [] => .ok []
  | (column, conc) :: rest =>
    match resolve src column conc with
    | .error e => .error e
    | .ok (c, v) =>
      match labelFor src column c with
      | none => .error .indexError
      | some l =>
        match resolvedCols src rest with
        | .error e => .error e
        | .ok rs => .ok ((column, l, v) :: rs)

/-- The outer loop of `generateVolumeTable` (lines 78-103): append a fresh row
per reaction, resolve all its columns, fail when the total exceeds 2.5 (the
`raise` at line 99 crashes with a `TypeError` while concatenating the float
total into its message), otherwise set the `Water` cell to `2.5 - vol` and
replay line 103's stray masked assignment
`vol_table_df.loc[vol_table_df['Label'] == label, column] = vol_to_add`,
which uses the loop-carried Python locals (unbound on the first row if it has
no columns). -/
def processRows (src : List SourceEntry) :
    List (String × List (String × ℚ)) → VolTable →
    Option (String × String × ℚ) → Except Err VolTable
  | [], t, _ => .ok t
  | (rowLabel, cols) :: rest, t, last =>
    match processCols src rowLabel cols (appendRow t rowLabel) 0 last with
    | .error e => .error e
    | .ok (t2, vol, last2) =>
      if 5/2 < vol then .error .typeError
      else
        match last2 with
        | none => .error .nameUnbound
        | some (l, column, v) =>
          processRows src rest
            (setCell (setCell t2 rowLabel "Water" (5/2 - vol)) l column v)
            last2

/-- `generateVolumeTable` from whispr.py lines 57-107.  The mixing table is a
list of `(reaction id, [(column, target concentration)])` rows.  A duplicated
reaction identifier or a duplicated reagent column makes line 84's
`float(mixing_table_df.loc[row][column])` receive a pandas Series instead of
a scalar and raise a `TypeError`, aborting the run with no table; the guard
models that fail-fast crash.  Otherwise the initial volume table has one
column per source entry label and no rows. -/
def generateVolumeTable (mix : List (String × List (String × ℚ)))
    (src : List SourceEntry) : Except Err VolTable :=
  if (mix.map Prod.fst).Nodup ∧ (∀ p ∈ mix, (p.2.map Prod.fst).Nodup) then
    processRows src mix ⟨src.map (fun e => e.label), []⟩ none
  else .error .typeError

/-- One transfer record of the ECHO protocol dataframe. -/
structure TransferInstruction where
  sourcePlateName : String
  sourcePlateType : PlateType
  sourceWell : String
  destPlateName : String
  destWell : String
  transferVolume : ℚ
deriving DecidableEq, Repr

/-- The row dict built at lines 206-207: fixed plate names, the allocated
source well, the destination well, and the volume scaled by 1000 (ul → nl). -/
def mkRow (pt : PlateType) (srcWell destWell : String) (v : ℚ) :
    TransferInstruction :=
  ⟨"Source[1]", pt, srcWell, "Destination[1]", destWell, v * 1000⟩

/-- Per-well usable volume threshold set by `writeProtocol` lines 133-136. -/
def volRangeProtocol : PlateType → ℚ
  | .LDV => 19/2
  | .P384PP => 45

/-- The allocation step of `writeProtocol` lines 200-210 for one transfer:
`wells` is the freshly re-read and comma-split well list of the reagent, `u`
the cumulative volume used so far, `v` the transfer volume.  If
`u + v >= vol_range`, reset the usage to 0 and drop the first well, failing
with the named exhaustion error when no well remains; then emit the front well
of the (possibly shortened) list and add `v` to the usage. -/
def allocateStep (volRange : ℚ) (component : String) (wells : List String)
    (u v : ℚ) : Except Err (String × ℚ) :=
  if volRange ≤ u + v then
    match wells.drop 1 with
    | [] => .error (.sourceExhausted component)
    | w :: _ => .ok (w, 0 + v)
  else
    match wells with
    | [] => .error .indexError
    | w :: _ => .ok (w, u + v)

/-- The component loop of `writeProtocol` lines 191-212 for one destination
well: for every column of the volume table whose cell in the reaction's row is
strictly positive, look up the first source entry with that label, run the
allocation step, and append one transfer row.  `vu` is the `vol_used`
dictionary. -/
def processComponents (pt : PlateType) (src : List SourceEntry)
    (volRange : ℚ) (cells : List (String × ℚ)) (destWell : String) :
    List String → (String → ℚ) →
    Except Err (List TransferInstruction × (String → ℚ))
  | [], vu => .ok ([], vu)
  | comp :: comps, vu =>
    if 0 < getCell cells comp then
      match src.find? (fun e => e.label == comp) with
      | none => .error .indexError
      | some e =>
        match allocateStep volRange comp e.wells (vu comp)
            (getCell cells comp) with
        | .error er => .error er
        | .ok (w, u2) =>
          match processComponents pt src volRange cells destWell comps
              (fun k => if k == comp then u2 else vu k) with
          | .error er => .error er
          | .ok (rows, vu2) =>
            .ok (mkRow pt w destWell (getCell cells comp) :: rows, vu2)
    else processComponents pt src volRange cells destWell comps vu

/-- The destination-well loop of `writeProtocol` line 189: process every well
position assigned to the current reaction, threading `vol_used`. -/
def processWells (pt : PlateType) (src : List SourceEntry) (volRange : ℚ)
    (cols : List String) (cells : List (String × ℚ)) :
    List String → (String → ℚ) →
    Except Err (List TransferInstruction × (String → ℚ))
  | [], vu => .ok ([], vu)
  | dw :: dws, vu =>
    match processComponents pt src volRange cells dw cols vu with
    | .error er => .error er
    | .ok (rows1, vu1) =>
      match processWells pt src volRange cols cells dws vu1 with
      | .error er => .error er
      | .ok (rows2, vu2) => .ok (rows1 ++ rows2, vu2)

/-- The reaction loop of `writeProtocol` lines 187-188: reactions of the
destination layout with no matching row in the volume table are skipped. -/
def processRxns (pt : PlateType) (src : List SourceEntry) (volRange : ℚ)
    (t : VolTable) :
    List (String × List String) → (String → ℚ) →
    Except Err (List TransferInstruction × (String → ℚ))
  | [], vu => .ok ([], vu)
  | (rxn, dws) :: rest, vu =>
    match t.rows.find? (fun r => r.label == rxn) with
    | none => processRxns pt src volRange t rest vu
    | some r =>
      match processWells pt src volRange t.cols r.cells dws vu with
      | .error er => .error er
      | .ok (rows1, vu1) =>
        match processRxns pt src volRange t rest vu1 with
        | .error er => .error er
        | .ok (rows2, vu2) => .ok (rows1 ++ rows2, vu2)

/-- `writeProtocol` from whispr.py lines 111-231.  The destination layout is
given as the reaction-to-well-positions mapping `rxnLoc` that lines 145-153
read from the layout file (file parsing is an external collaborator); the
`vol_used` dictionary starts at 0 for every component. -/
def writeProtocol (pt : PlateType) (t : VolTable)
    (rxnLoc : List (String × List String)) (src : List SourceEntry) :
    Except Err (List TransferInstruction) :=
  match processRxns pt src (volRangeProtocol pt) t rxnLoc (fun _ => 0) with
  | .error er => .error er
  | .ok (rows, _) => .ok rows

instance : IsTotal ℚ (fun a b => b ≤ a) :=
  ⟨fun a b => le_total b a⟩

instance : IsTrans ℚ (fun a b => b ≤ a) :=
  ⟨fun _ _ _ hab hbc => le_trans hbc hab⟩

theorem myround_zero : myround 0 = 0 := by decide

theorem resolveLoop_ok (target : ℚ) :
    ∀ l c v, resolveLoop target l = .ok (c, v) →
      v = myround (10 * target / c) ∧ (0 < target → v ≠ 0) ∧
      ∃ pre suf, l = pre ++ c :: suf ∧
        ∀ c2 ∈ pre, myround (10 * target / c2) = 0
  | [], c, v, h => by simp [resolveLoop] at h
  | c0 :: rest, c, v, h => by
    rw [resolveLoop] at h
    by_cases hc : 0 < target ∧ myround (10 * target / c0) = 0
    · rw [if_pos hc] at h
      obtain ⟨hv, hnz, pre, suf, hl, hpre⟩ := resolveLoop_ok target rest c v h
      refine ⟨hv, hnz, c0 :: pre, suf, by simp [hl], ?_⟩
      intro c2 hc2
      rcases List.mem_cons.mp hc2 with h' | h'
      · exact h' ▸ hc.2
      · exact hpre c2 h'
    · rw [if_neg hc] at h
      obtain ⟨hc0, hv⟩ := by
        have := h
        simp only [Except.ok.injEq, Prod.mk.injEq] at this
        exact this
      refine ⟨by rw [← hc0, ← hv], ?_, [], rest, by simp [hc0], by simp⟩
      intro ht hv0
      exact hc ⟨ht, hv.trans hv0⟩

theorem resolveLoop_all_zero (target : ℚ) (ht : 0 < target) :
    ∀ l, (∀ c ∈ l, myround (10 * target / c) = 0) →
      resolveLoop target l = .error .indexError
  | [], _ => rfl
  | c0 :: rest, hall => by
    rw [resolveLoop, if_pos ⟨ht, hall c0 (List.mem_cons_self c0 rest)⟩]
    exact resolveLoop_all_zero target ht rest
      (fun c hc => hall c (List.mem_cons_of_mem c0 hc))

/-- C3: for a strictly positive target concentration, `resolve` walks the
source entries for the column in descending concentration order and returns
the first concentration whose quantized volume `myround (10 * target / c)` is
nonzero, together with that volume (every higher concentration tier quantizes
to 0); for a target of 0 the very first (highest) tier is returned with
volume 0 and no further entries are tried; and in `generateVolumeTable`'s
column loop the returned volume is recorded in the reaction's row under the
resolved entry's label. -/
theorem resolve_descending_first_nonzero (src : List SourceEntry)
    (column : String) (target : ℚ) :
    (∀ c v, resolve src column target = .ok (c, v) →
      v = myround (10 * target / c) ∧ (0 < target → v ≠ 0) ∧
      ∃ pre suf, sortDesc (concsOf src column) = pre ++ c :: suf ∧
        ∀ c2 ∈ pre, myround (10 * target / c2) = 0) ∧
    (target = 0 → ∀ c0 rest, sortDesc (concsOf src column) = c0 :: rest →
      resolve src column target = .ok (c0, 0)) ∧
    List.Sorted (fun a b => b ≤ a) (sortDesc (concsOf src column)) ∧
    List.Perm (sortDesc (concsOf src column)) (concsOf src column) ∧
    (∀ rowLabel rest t vol last c v l,
      resolve src column target = .ok (c, v) →
      labelFor src column c = some l →
      processCols src rowLabel ((column, target) :: rest) t vol last =
        processCols src rowLabel rest (setCell t rowLabel l v) (vol + v)
          (some (l, column, v))) := by
  refine ⟨?_, ?_, List.sorted_insertionSort _ _, List.perm_insertionSort _ _,
    ?_⟩
  · intro c v h
    exact resolveLoop_ok target _ c v h
  · intro ht c0 rest hsort
    rw [resolve, hsort, resolveLoop, ht]
    simp [myround_zero]
  · intro rowLabel rest t vol last c v l hres hlab
    rw [processCols, hres]
    dsimp only
    rw [hlab]

/-- Witness for C3, exercising the fallback: reagent entries at concentrations
1000 and 2 for target 1/10; the top tier quantizes to 0
(`myround (1/1000) = 0`) so the second tier (volume 1/2) is selected. -/
theorem resolve_descending_first_nonzero_witness :
    (1/2 : ℚ) = myround (10 * (1/10) / 2) ∧ ((0 : ℚ) < 1/10 → (1/2 : ℚ) ≠ 0) ∧
    ∃ pre suf,
      sortDesc (concsOf [⟨"k1", "A", ["W1"], 1000, [30]⟩,
        ⟨"k1", "B", ["W2"], 2, [30]⟩] "k1") = pre ++ (2 : ℚ) :: suf ∧
      ∀ c2 ∈ pre, myround (10 * (1/10) / c2) = 0 :=
  (resolve_descending_first_nonzero [⟨"k1", "A", ["W1"], 1000, [30]⟩,
    ⟨"k1", "B", ["W2"], 2, [30]⟩] "k1" (1/10)).1 2 (1/2) (by decide)

theorem sortDesc_mem {l : List ℚ} {c : ℚ} (h : c ∈ sortDesc l) : c ∈ l :=
  (List.perm_insertionSort _ l).subset h

/-- Amended C4: when the target concentration is strictly positive and every
source entry addressed by the column quantizes to volume 0, `resolve` fails
with the unnamed positional-indexing error (the while loop at lines 88-91
walks past the end of the sorted Series), not with a named source-exhaustion
error carrying the reagent. -/
theorem resolve_exhausted_indexError (src : List SourceEntry)
    (column : String) (target : ℚ) (ht : 0 < target)
    (hall : ∀ e ∈ src, e.key = column →
      myround (10 * target / e.concentration) = 0) :
    resolve src column target = .error .indexError := by
  rw [resolve]
  refine resolveLoop_all_zero target ht _ ?_
  intro c hc
  have hc' := sortDesc_mem hc
  rw [concsOf] at hc'
  obtain ⟨e, he, hec⟩ := List.mem_map.mp hc'
  have hkey : e.key = column := by
    have := List.of_mem_filter he
    exact beq_iff_eq.mp this
  exact hec ▸ hall e (List.mem_of_mem_filter he) hkey

/-- Witness for amended C4: a single 1000-concentration entry for target
1/1000 quantizes to 0, and resolution fails with the index error. -/
theorem resolve_exhausted_indexError_witness :
    (0 : ℚ) < 1/1000 ∧
    resolve [⟨"k1", "A", ["W1"], 1000, [30]⟩] "k1" (1/1000) =
      .error .indexError :=
  ⟨by norm_num,
   resolve_exhausted_indexError [⟨"k1", "A", ["W1"], 1000, [30]⟩] "k1"
     (1/1000) (by norm_num) (by decide)⟩

/-- Counterexample to C4 as stated: at a concrete input where every entry has
been tried and the volume is still 0 for a strictly positive target, the
failure is the unnamed index error, not a `SourceExhausted` error naming the
reagent. -/
theorem resolve_exhausted_cex :
    resolve [⟨"k2", "B", ["W1"], 1000, [30]⟩] "k2" (1/1000) =
      .error .indexError ∧
    Err.indexError.isSourceExhausted = false := by
  constructor
  · decide
  · rfl

/-- C2: one allocation step of `writeProtocol` returns the same (front) source
well exactly when `u + v < vol_range`; otherwise it rotates: the next well in
the declared order is returned and the cumulative usage is reset to `v` (or
the named exhaustion error is raised when no next well exists).  The threshold
is 9.5 for LDV and 45 for 384PP plate types.  The front well `w0` is assumed
not to reappear later in the declared list, so that well names identify
wells. -/
theorem allocateStep_rotation_iff (pt : PlateType) (comp w0 : String)
    (ws : List String) (u v : ℚ) (hw : w0 ∉ ws) :
    ((allocateStep (volRangeProtocol pt) comp (w0 :: ws) u v).map Prod.fst =
        .ok w0 ↔ u + v < volRangeProtocol pt) ∧
    (volRangeProtocol pt ≤ u + v →
      allocateStep (volRangeProtocol pt) comp (w0 :: ws) u v =
        match ws with
        | [] => .error (.sourceExhausted comp)
        | w1 :: _ => .ok (w1, v)) ∧
    (u + v < volRangeProtocol pt →
      allocateStep (volRangeProtocol pt) comp (w0 :: ws) u v =
        .ok (w0, u + v)) ∧
    volRangeProtocol .LDV = 19/2 ∧ volRangeProtocol .P384PP = 45 := by
  refine ⟨?_, ?_, ?_, rfl, rfl⟩
  · by_cases h : volRangeProtocol pt ≤ u + v
    · rw [allocateStep, if_pos h]
      cases ws with
      | nil =>
        constructor
        · intro habs
          simp [Except.map] at habs
        · intro hlt
          exact absurd h (not_le.mpr hlt)
      | cons w1 ws2 =>
        constructor
        · intro habs
          simp only [List.drop_succ_cons, List.drop_zero, Except.map,
            Except.ok.injEq] at habs
          exact absurd (habs ▸ List.mem_cons_self w1 ws2) hw
        · intro hlt
          exact absurd h (not_le.mpr hlt)
    · rw [allocateStep, if_neg h]
      simp only [Except.map, Except.ok.injEq]
      exact ⟨fun _ => not_le.mp h, fun _ => trivial⟩
  · intro h
    rw [allocateStep, if_pos h]
    cases ws with
    | nil => rfl
    | cons w1 ws2 =>
      simp only [List.drop_succ_cons, List.drop_zero, zero_add]
  · intro h
    rw [allocateStep, if_neg (not_le.mpr h)]

/-- Witness for C2 on an LDV plate: usage 8 plus transfer 2 reaches the 9.5
threshold, so the step rotates to the second declared well and resets the
usage to 2. -/
theorem allocateStep_rotation_iff_witness :
    allocateStep (volRangeProtocol .LDV) "A" ["W1", "W2"] 8 2 =
      .ok ("W2", 2) :=
  (allocateStep_rotation_iff .LDV "A" "W1" ["W2"] 8 2 (by decide)).2.1
    (by norm_num [volRangeProtocol])

/-- C6 (code bug): at a reaction whose resolved total reagent volume exceeds
2.5, line 99 crashes with a `TypeError` while concatenating the float total
into the message of the intended reaction-volume error (`'Total volume is '
+ vol` adds a string and a float), so no named error carrying the reaction
and total is ever raised; at a reaction whose total does not exceed 2.5 no
error is raised and the `Water` cell is set to `2.5 - total`. -/
theorem generateVolumeTable_typeError_on_overflow :
    generateVolumeTable [("R1", [("k1", 30)])]
      [⟨"k1", "A", ["W1"], 100, [30]⟩] = .error .typeError ∧
    generateVolumeTable [("R2", [("k1", 5)])]
      [⟨"k1", "A", ["W1"], 100, [30]⟩] =
      .ok ⟨["A", "Water", "k1"], [⟨"R2", [("A", 1/2), ("Water", 2)]⟩]⟩ := by
  constructor
  · decide
  · decide

theorem allocateStep_ok_mem_take (volRange : ℚ) (comp : String)
    (wells : List String) (u v : ℚ) (w : String) (u2 : ℚ)
    (h : allocateStep volRange comp wells u v = .ok (w, u2)) :
    w ∈ wells.take 2 := by
  rw [allocateStep.eq_def] at h
  by_cases hc : volRange ≤ u + v
  · rw [if_pos hc] at h
    cases wells with
    | nil => cases h
    | cons w0 ws =>
      cases ws with
      | nil => simp at h
      | cons w1 ws2 =>
        simp only [List.drop_succ_cons, List.drop_zero, Except.ok.injEq,
          Prod.mk.injEq] at h
        simp [← h.1]
  · rw [if_neg hc] at h
    cases wells with
    | nil => cases h
    | cons w0 ws =>
      simp only [Except.ok.injEq, Prod.mk.injEq] at h
      simp [← h.1]

theorem allocateStep_two_wells_ok (volRange : ℚ) (comp : String)
    (w0 w1 : String) (ws : List String) (u v : ℚ) :
    ∃ w u2, allocateStep volRange comp (w0 :: w1 :: ws) u v = .ok (w, u2) := by
  by_cases hc : volRange ≤ u + v
  · exact ⟨w1, 0 + v, by rw [allocateStep.eq_def, if_pos hc]; simp⟩
  · exact ⟨w0, u + v, by rw [allocateStep.eq_def, if_neg hc]⟩

theorem processComponents_ok_spec (pt : PlateType) (src : List SourceEntry)
    (volRange : ℚ) (cells : List (String × ℚ)) (dw : String) :
    ∀ comps vu rows vu2,
      processComponents pt src volRange cells dw comps vu = .ok (rows, vu2) →
      (rows.map (fun i => (i.destWell, i.transferVolume)) =
        ((comps.map (fun c => getCell cells c)).filter
          (fun x => decide (0 < x))).map (fun x => (dw, x * 1000))) ∧
      ∀ i ∈ rows, ∃ c e, src.find? (fun e2 => e2.label == c) = some e ∧
        i.sourceWell ∈ e.wells.take 2
  | [], vu, rows, vu2, h => by
    rw [processComponents] at h
    simp only [Except.ok.injEq, Prod.mk.injEq] at h
    rw [← h.1]
    simp
  | comp :: comps, vu, rows, vu2, h => by
    by_cases htv : 0 < getCell cells comp
    · rw [processComponents, if_pos htv] at h
      cases hfind : src.find? (fun e => e.label == comp) with
      | none => rw [hfind] at h; cases h
      | some e =>
        rw [hfind] at h
        dsimp only at h
        cases halloc : allocateStep volRange comp e.wells (vu comp)
            (getCell cells comp) with
        | error er => rw [halloc] at h; cases h
        | ok p =>
          obtain ⟨w, u2⟩ := p
          rw [halloc] at h
          dsimp only at h
          cases hrec : processComponents pt src volRange cells dw comps
              (fun k => if k == comp then u2 else vu k) with
          | error er => rw [hrec] at h; cases h
          | ok q =>
            obtain ⟨rows1, vu1⟩ := q
            rw [hrec] at h
            dsimp only at h
            simp only [Except.ok.injEq, Prod.mk.injEq] at h
            obtain ⟨hrows, hvu⟩ := h
            obtain ⟨ih1, ih2⟩ := processComponents_ok_spec pt src volRange
              cells dw comps _ rows1 vu1 hrec
            rw [← hrows]
            constructor
            · simp [htv, ih1, mkRow]
            · intro i hi
              rcases List.mem_cons.mp hi with hi | hi
              · refine ⟨comp, e, hfind, ?_⟩
                rw [hi]
                exact allocateStep_ok_mem_take volRange comp e.wells
                  (vu comp) (getCell cells comp) w u2 halloc
              · exact ih2 i hi
    · rw [processComponents, if_neg htv] at h
      obtain ⟨ih1, ih2⟩ := processComponents_ok_spec pt src volRange cells dw
        comps vu rows vu2 h
      constructor
      · simp [htv, ih1]
      · exact ih2

theorem processWells_ok_spec (pt : PlateType) (src : List SourceEntry)
    (volRange : ℚ) (cols : List String) (cells : List (String × ℚ)) :
    ∀ dws vu rows vu2,
      processWells pt src volRange cols cells dws vu = .ok (rows, vu2) →
      (rows.map (fun i => (i.destWell, i.transferVolume)) =
        (dws.map (fun dw =>
          ((cols.map (fun c => getCell cells c)).filter
            (fun x => decide (0 < x))).map (fun x => (dw, x * 1000)))).flatten) ∧
      ∀ i ∈ rows, ∃ c e, src.find? (fun e2 => e2.label == c) = some e ∧
        i.sourceWell ∈ e.wells.take 2
  | [], vu, rows, vu2, h => by
    rw [processWells] at h
    simp only [Except.ok.injEq, Prod.mk.injEq] at h
    rw [← h.1]
    simp
  | dw :: dws, vu, rows, vu2, h => by
    rw [processWells] at h
    cases h1 : processComponents pt src volRange cells dw cols vu with
    | error er => rw [h1] at h; cases h
    | ok p =>
      obtain ⟨rows1, vu1⟩ := p
      rw [h1] at h
      dsimp only at h
      cases h2 : processWells pt src volRange cols cells dws vu1 with
      | error er => rw [h2] at h; cases h
      | ok q =>
        obtain ⟨rows2, vu2b⟩ := q
        rw [h2] at h
        dsimp only at h
        simp only [Except.ok.injEq, Prod.mk.injEq] at h
        obtain ⟨hrows, hvu⟩ := h
        obtain ⟨c1, cm1⟩ := processComponents_ok_spec pt src volRange cells
          dw cols vu rows1 vu1 h1
        obtain ⟨w1, wm1⟩ := processWells_ok_spec pt src volRange cols cells
          dws vu1 rows2 vu2b h2
        rw [← hrows]
        constructor
        · simp only [List.map_append, List.map_cons, List.flatten_cons, c1, w1]
        · intro i hi
          rcases List.mem_append.mp hi with hi | hi
          · exact cm1 i hi
          · exact wm1 i hi

theorem processRxns_ok_spec (pt : PlateType) (src : List SourceEntry)
    (volRange : ℚ) (t : VolTable) :
    ∀ rxnLoc vu rows vu2,
      processRxns pt src volRange t rxnLoc vu = .ok (rows, vu2) →
      (rows.map (fun i => (i.destWell, i.transferVolume)) =
        (rxnLoc.map (fun p =>
          match t.rows.find? (fun r => r.label == p.1) with
          | none => []
          | some r =>
            (p.2.map (fun dw =>
              ((t.cols.map (fun c => getCell r.cells c)).filter
                (fun x => decide (0 < x))).map
                  (fun x => (dw, x * 1000)))).flatten)).flatten) ∧
      ∀ i ∈ rows, ∃ c e, src.find? (fun e2 => e2.label == c) = some e ∧
        i.sourceWell ∈ e.wells.take 2
  | [], vu, rows, vu2, h => by
    rw [processRxns] at h
    simp only [Except.ok.injEq, Prod.mk.injEq] at h
    rw [← h.1]
    simp
  | (rxn, dws) :: rest, vu, rows, vu2, h => by
    rw [processRxns] at h
    cases hfind : t.rows.find? (fun r => r.label == rxn) with
    | none =>
      rw [hfind] at h
      obtain ⟨ih1, ih2⟩ := processRxns_ok_spec pt src volRange t rest vu
        rows vu2 h
      constructor
      · simp only [List.map_cons, List.flatten_cons, hfind, ih1,
          List.nil_append]
      · exact ih2
    | some r =>
      rw [hfind] at h
      dsimp only at h
      cases h1 : processWells pt src volRange t.cols r.cells dws vu with
      | error er => rw [h1] at h; cases h
      | ok p =>
        obtain ⟨rows1, vu1⟩ := p
        rw [h1] at h
        dsimp only at h
        cases h2 : processRxns pt src volRange t rest vu1 with
        | error er => rw [h2] at h; cases h
        | ok q =>
          obtain ⟨rows2, vu2b⟩ := q
          rw [h2] at h
          dsimp only at h
          simp only [Except.ok.injEq, Prod.mk.injEq] at h
          obtain ⟨hrows, hvu⟩ := h
          obtain ⟨w1, wm1⟩ := processWells_ok_spec pt src volRange t.cols
            r.cells dws vu rows1 vu1 h1
          obtain ⟨r1, rm1⟩ := processRxns_ok_spec pt src volRange t rest vu1
            rows2 vu2b h2
          rw [← hrows]
          constructor
          · simp only [List.map_append, List.map_cons, List.flatten_cons,
              hfind, w1, r1]
          · intro i hi
            rcases List.mem_append.mp hi with hi | hi
            · exact wm1 i hi
            · exact rm1 i hi

theorem processRxns_all_skipped (pt : PlateType) (src : List SourceEntry)
    (volRange : ℚ) (t : VolTable) :
    ∀ rxnLoc vu,
      (∀ p ∈ rxnLoc, t.rows.find? (fun r => r.label == p.1) = none) →
      processRxns pt src volRange t rxnLoc vu = .ok ([], vu)
  | [], _, _ => rfl
  | (rxn, dws) :: rest, vu, h => by
    have hh := h (rxn, dws) (List.mem_cons_self _ _)
    dsimp only at hh
    rw [processRxns, hh]
    exact processRxns_all_skipped pt src volRange t rest vu
      (fun p hp => h p (List.mem_cons_of_mem _ hp))

/-- C7: when `writeProtocol` succeeds, its output contains exactly one
transfer per (destination position, reagent column with strictly positive
volume) pair, in order: the projection to (destination well, transfer volume)
equals the flattened per-reaction expansion, with each volume scaled by 1000;
and destination-layout reactions with no matching volume-table row contribute
no instruction and raise no error (a layout of only such reactions yields an
empty protocol). -/
theorem writeProtocol_transfers (pt : PlateType) (t : VolTable)
    (rxnLoc : List (String × List String)) (src : List SourceEntry)
    (out : List TransferInstruction)
    (hok : writeProtocol pt t rxnLoc src = .ok out) :
    (out.map (fun i => (i.destWell, i.transferVolume)) =
      (rxnLoc.map (fun p =>
        match t.rows.find? (fun r => r.label == p.1) with
        | none => []
        | some r =>
          (p.2.map (fun dw =>
            ((t.cols.map (fun c => getCell r.cells c)).filter
              (fun x => decide (0 < x))).map
                (fun x => (dw, x * 1000)))).flatten)).flatten) ∧
    (∀ rxnLoc2 : List (String × List String),
      (∀ p ∈ rxnLoc2, t.rows.find? (fun r => r.label == p.1) = none) →
      writeProtocol pt t rxnLoc2 src = .ok []) := by
  constructor
  · rw [writeProtocol] at hok
    cases hp : processRxns pt src (volRangeProtocol pt) t rxnLoc
        (fun _ => 0) with
    | error er => rw [hp] at hok; cases hok
    | ok q =>
      obtain ⟨rows, vu⟩ := q
      rw [hp] at hok
      dsimp only at hok
      obtain ⟨h1, _⟩ := processRxns_ok_spec pt src (volRangeProtocol pt) t
        rxnLoc (fun _ => 0) rows vu hp
      simp only [Except.ok.injEq] at hok
      rw [← hok]
      exact h1
  · intro rxnLoc2 hskip
    rw [writeProtocol, processRxns_all_skipped pt src (volRangeProtocol pt) t
      rxnLoc2 (fun _ => 0) hskip]

/-- Witness for C7: a two-position layout where reaction `R` has one positive
reagent cell of 1/2 and reaction `X` has no volume-table row produces exactly
one transfer to `B1` of 500 instrument units. -/
theorem writeProtocol_transfers_witness :
    [mkRow .LDV "W1" "B1" (1/2)].map
      (fun i => (i.destWell, i.transferVolume)) = [("B1", (500 : ℚ))] := by
  have h := (writeProtocol_transfers .LDV ⟨["A"], [⟨"R", [("A", 1/2)]⟩]⟩
    [("R", ["B1"]), ("X", ["C1"])] [⟨"k1", "A", ["W1", "W2"], 100, [10]⟩]
    [mkRow .LDV "W1" "B1" (1/2)] (by decide)).1
  rw [h]
  decide

/-- C10: every transfer emitted by a successful `writeProtocol` run draws
from the first or the second well of the declared comma-separated well list
of the first source entry carrying its reagent label: the list is re-read in
full at every transfer and at most one well is dropped, so wells at position
three or later are never used, no matter how many rotations occur. -/
theorem writeProtocol_first_two_wells (pt : PlateType) (t : VolTable)
    (rxnLoc : List (String × List String)) (src : List SourceEntry)
    (out : List TransferInstruction)
    (hok : writeProtocol pt t rxnLoc src = .ok out) :
    ∀ i ∈ out, ∃ c e, src.find? (fun e2 => e2.label == c) = some e ∧
      i.sourceWell ∈ e.wells.take 2 := by
  rw [writeProtocol] at hok
  cases hp : processRxns pt src (volRangeProtocol pt) t rxnLoc
      (fun _ => 0) with
  | error er => rw [hp] at hok; cases hok
  | ok q =>
    obtain ⟨rows, vu⟩ := q
    rw [hp] at hok
    dsimp only at hok
    simp only [Except.ok.injEq] at hok
    obtain ⟨_, h2⟩ := processRxns_ok_spec pt src (volRangeProtocol pt) t
      rxnLoc (fun _ => 0) rows vu hp
    rw [← hok]
    exact h2

/-- Witness for C10: with three declared wells, the single emitted transfer
draws from well `W1`, which lies among the first two declared wells. -/
theorem writeProtocol_first_two_wells_witness :
    ∃ c e, ([(⟨"k1", "A", ["W1", "W2", "W3"], 100, [10]⟩ : SourceEntry)].find?
        (fun e2 => e2.label == c)) = some e ∧
      "W1" ∈ e.wells.take 2 := by
  have h := writeProtocol_first_two_wells .LDV
    ⟨["A"], [⟨"R", [("A", 1/2)]⟩]⟩ [("R", ["B1"])]
    [⟨"k1", "A", ["W1", "W2", "W3"], 100, [10]⟩]
    [mkRow .LDV "W1" "B1" (1/2)] (by decide)
  exact h (mkRow .LDV "W1" "B1" (1/2)) (by decide)

theorem processComponents_no_exhaustion (pt : PlateType)
    (src : List SourceEntry) (volRange : ℚ) (cells : List (String × ℚ))
    (dw : String) (h2 : ∀ e ∈ src, 2 ≤ e.wells.length) :
    ∀ comps vu s, processComponents pt src volRange cells dw comps vu ≠
      .error (.sourceExhausted s)
  | [], vu, s => by
    rw [processComponents]
    intro h
    cases h
  | comp :: comps, vu, s => by
    by_cases htv : 0 < getCell cells comp
    · rw [processComponents, if_pos htv]
      cases hfind : src.find? (fun e => e.label == comp) with
      | none =>
        intro h
        cases h
      | some e =>
        dsimp only
        have hmem := List.mem_of_find?_eq_some hfind
        have hlen := h2 e hmem
        cases hwells : e.wells with
        | nil => rw [hwells] at hlen; simp at hlen
        | cons w0 tl =>
          cases htl : tl with
          | nil =>
            rw [hwells, htl] at hlen
            simp at hlen
          | cons w1 ws =>
            obtain ⟨w, u2, halloc⟩ :=
              allocateStep_two_wells_ok volRange comp w0 w1 ws
                (vu comp) (getCell cells comp)
            rw [halloc]
            dsimp only
            cases hrec : processComponents pt src volRange cells dw comps
                (fun k => if k == comp then u2 else vu k) with
            | error er =>
              intro h
              have her : er = .sourceExhausted s := by
                injection h
              rw [her] at hrec
              exact processComponents_no_exhaustion pt src volRange cells dw
                h2 comps _ s hrec
            | ok q =>
              obtain ⟨rows1, vu1⟩ := q
              intro h
              cases h
    · rw [processComponents, if_neg htv]
      exact processComponents_no_exhaustion pt src volRange cells dw h2
        comps vu s

theorem processWells_no_exhaustion (pt : PlateType) (src : List SourceEntry)
    (volRange : ℚ) (cols : List String) (cells : List (String × ℚ))
    (h2 : ∀ e ∈ src, 2 ≤ e.wells.length) :
    ∀ dws vu s, processWells pt src volRange cols cells dws vu ≠
      .error (.sourceExhausted s)
  | [], vu, s => by
    rw [processWells]
    intro h
    cases h
  | dw :: dws, vu, s => by
    rw [processWells]
    cases h1 : processComponents pt src volRange cells dw cols vu with
    | error er =>
      intro h
      have her : er = .sourceExhausted s := by injection h
      rw [her] at h1
      exact processComponents_no_exhaustion pt src volRange cells dw h2
        cols vu s h1
    | ok p =>
      obtain ⟨rows1, vu1⟩ := p
      dsimp only
      cases hr : processWells pt src volRange cols cells dws vu1 with
      | error er =>
        intro h
        have her : er = .sourceExhausted s := by injection h
        rw [her] at hr
        exact processWells_no_exhaustion pt src volRange cols cells h2
          dws vu1 s hr
      | ok q =>
        obtain ⟨rows2, vu2⟩ := q
        intro h
        cases h

theorem processRxns_no_exhaustion (pt : PlateType) (src : List SourceEntry)
    (volRange : ℚ) (t : VolTable)
    (h2 : ∀ e ∈ src, 2 ≤ e.wells.length) :
    ∀ rxnLoc vu s, processRxns pt src volRange t rxnLoc vu ≠
      .error (.sourceExhausted s)
  | [], vu, s => by
    rw [processRxns]
    intro h
    cases h
  | (rxn, dws) :: rest, vu, s => by
    rw [processRxns]
    cases hfind : t.rows.find? (fun r => r.label == rxn) with
    | none =>
      exact processRxns_no_exhaustion pt src volRange t h2 rest vu s
    | some r =>
      dsimp only
      cases h1 : processWells pt src volRange t.cols r.cells dws vu with
      | error er =>
        intro h
        have her : er = .sourceExhausted s := by injection h
        rw [her] at h1
        exact processWells_no_exhaustion pt src volRange t.cols r.cells h2
          dws vu s h1
      | ok p =>
        obtain ⟨rows1, vu1⟩ := p
        dsimp only
        cases hr : processRxns pt src volRange t rest vu1 with
        | error er =>
          intro h
          have her : er = .sourceExhausted s := by injection h
          rw [her] at hr
          exact processRxns_no_exhaustion pt src volRange t h2 rest vu1 s hr
        | ok q =>
          obtain ⟨rows2, vu2⟩ := q
          intro h
          cases h

/-- Amended C5: a run only fails with the named source-exhaustion error when
a rotation is forced while the reagent's freshly re-read declared well list
has a single well (`u + v >= vol_range` and dropping the front empties the
list); because the full declared list is re-read at every transfer, a source
inventory in which every entry declares at least two wells never produces a
SourceExhaustedError, however many rotations the cumulative usage forces. -/
theorem writeProtocol_no_exhaustion_two_wells (pt : PlateType) (t : VolTable)
    (rxnLoc : List (String × List String)) (src : List SourceEntry)
    (s comp : String) (wells : List String) (u v volRange : ℚ)
    (h2 : ∀ e ∈ src, 2 ≤ e.wells.length) :
    writeProtocol pt t rxnLoc src ≠ .error (.sourceExhausted s) ∧
    (allocateStep volRange comp wells u v =
        .error (.sourceExhausted comp) ↔
      volRange ≤ u + v ∧ wells.drop 1 = []) := by
  constructor
  · rw [writeProtocol]
    cases hp : processRxns pt src (volRangeProtocol pt) t rxnLoc
        (fun _ => 0) with
    | error er =>
      intro h
      have her : er = .sourceExhausted s := by injection h
      rw [her] at hp
      exact processRxns_no_exhaustion pt src (volRangeProtocol pt) t h2
        rxnLoc _ s hp
    | ok q =>
      obtain ⟨rows, vu⟩ := q
      intro h
      cases h
  · rw [allocateStep.eq_def]
    by_cases hc : volRange ≤ u + v
    · rw [if_pos hc]
      cases hd : wells.drop 1 with
      | nil => simp [hc]
      | cons w1 tl =>
        constructor
        · intro h
          cases h
        · intro ⟨_, hnil⟩
          cases hnil
    · rw [if_neg hc]
      cases wells with
      | nil =>
        constructor
        · intro h
          injection h with h'
          cases h'
        · intro ⟨hle, _⟩
          exact absurd hle hc
      | cons w0 ws =>
        constructor
        · intro h
          cases h
        · intro ⟨hle, _⟩
          exact absurd hle hc

/-- Witness for amended C5: two declared wells per entry, so a concrete run
cannot fail with exhaustion, and a single-well list at a forced rotation is
exactly the failing configuration of the allocation step. -/
theorem writeProtocol_no_exhaustion_two_wells_witness :
    writeProtocol .LDV ⟨["A"], [⟨"R", [("A", (5/2 : ℚ))]⟩]⟩ [("R", ["P1"])]
      [⟨"k1", "A", ["W1", "W2"], 100, [10]⟩] ≠
      .error (.sourceExhausted "A") ∧
    (allocateStep (19/2) "A" ["W1"] 8 2 = .error (.sourceExhausted "A") ↔
      (19/2 : ℚ) ≤ 8 + 2 ∧ (["W1"] : List String).drop 1 = []) :=
  writeProtocol_no_exhaustion_two_wells .LDV
    ⟨["A"], [⟨"R", [("A", (5/2 : ℚ))]⟩]⟩ [("R", ["P1"])]
    [⟨"k1", "A", ["W1", "W2"], 100, [10]⟩] "A" "A" ["W1"] 8 2 (19/2)
    (by decide)

/-- Counterexample to C5 as stated: reagent `A` declares `k = 2` wells and the
twelve 2.5-unit transfers on an LDV plate force three rotations (the three
transfers drawn from `W2`), which is more than `k`, yet the run succeeds with
a full 12-transfer protocol instead of failing with a SourceExhaustedError. -/
theorem writeProtocol_rotation_cex :
    (writeProtocol .LDV ⟨["A"], [⟨"R", [("A", 5/2)]⟩]⟩
      [("R", ["P01", "P02", "P03", "P04", "P05", "P06", "P07", "P08",
              "P09", "P10", "P11", "P12"])]
      [⟨"k1", "A", ["W1", "W2"], 100, [10]⟩]).map
      (fun l => ((l.filter (fun i => i.sourceWell == "W2")).length,
        l.length)) = .ok (3, 12) := by
  decide

theorem cellSet_of_not_mem (cells : List (String × ℚ)) (col : String)
    (v : ℚ) (h : col ∉ cells.map Prod.fst) :
    cellSet cells col v = cells ++ [(col, v)] := by
  rw [cellSet, if_neg]
  intro hany
  simp only [List.any_eq_true, beq_iff_eq] at hany
  obtain ⟨p, hp, hc⟩ := hany
  exact h (List.mem_map.mpr ⟨p, hp, hc⟩)

theorem cellsSum_append (c1 c2 : List (String × ℚ)) :
    cellsSum (c1 ++ c2) = cellsSum c1 + cellsSum c2 := by
  simp [cellsSum, List.filter_append]

theorem cellsSum_single_ne (col : String) (v : ℚ) (h : col ≠ "Water") :
    cellsSum [(col, v)] = v := by
  simp [cellsSum, h]

theorem cellsSum_single_water (v : ℚ) : cellsSum [("Water", v)] = 0 := by
  simp [cellsSum]

theorem find?_water_eq_none (cells : List (String × ℚ))
    (h : "Water" ∉ cells.map Prod.fst) :
    cells.find? (fun p => p.1 == "Water") = none := by
  rw [List.find?_eq_none]
  intro p hp hbeq
  exact h (List.mem_map.mpr ⟨p, hp, beq_iff_eq.mp hbeq⟩)

theorem waterVal_append_ne (cells : List (String × ℚ)) (col : String)
    (v : ℚ) (h : col ≠ "Water") :
    waterVal (cells ++ [(col, v)]) = waterVal cells := by
  simp only [waterVal, getCell]
  rw [List.find?_append]
  have h1 : ([(col, v)].find? (fun p => p.1 == "Water")) = none := by
    have hb : (col == "Water") = false := beq_eq_false_iff_ne.mpr h
    simp [List.find?, hb]
  rw [h1]
  cases hf : cells.find? (fun p => p.1 == "Water") with
  | none => rfl
  | some p => rfl

theorem waterVal_of_no_water (cells : List (String × ℚ))
    (h : "Water" ∉ cells.map Prod.fst) : waterVal cells = 0 := by
  rw [waterVal, getCell, find?_water_eq_none cells h]
  rfl

theorem waterVal_append_water (cells : List (String × ℚ)) (v : ℚ)
    (h : "Water" ∉ cells.map Prod.fst) :
    waterVal (cells ++ [("Water", v)]) = v := by
  rw [waterVal, getCell, List.find?_append, find?_water_eq_none cells h]
  simp [List.find?]

/-- The repeated cell updates `rs.foldl` performed on one row's cells by the
column loop: each triple `(column, label, volume)` writes the volume under
the label. -/
def foldCells (cells : List (String × ℚ))
    (rs : List (String × String × ℚ)) : List (String × ℚ) :=
  rs.foldl (fun cs p => cellSet cs p.2.1 p.2.2) cells

theorem foldCells_props :
    ∀ (rs : List (String × String × ℚ)) (cells : List (String × ℚ)),
      (rs.map (fun p => p.2.1)).Nodup →
      (∀ p ∈ rs, p.2.1 ∉ cells.map Prod.fst) →
      cellsSum (foldCells cells rs) =
        cellsSum cells + (rs.map (fun p =>
          if p.2.1 = "Water" then 0 else p.2.2)).sum ∧
      (foldCells cells rs).map Prod.fst =
        cells.map Prod.fst ++ rs.map (fun p => p.2.1) ∧
      (("Water" ∉ cells.map Prod.fst ∧
        (∀ p ∈ rs, p.2.1 ≠ "Water")) →
        waterVal (foldCells cells rs) = 0)
  | [], cells, _, _ => by
    refine ⟨by simp [foldCells], by simp [foldCells], ?_⟩
    intro ⟨h1, _⟩
    exact waterVal_of_no_water cells h1
  | p :: rs, cells, hnd, hnotin => by
    have hp1 : p.2.1 ∉ cells.map Prod.fst :=
      hnotin p (List.mem_cons_self _ _)
    have hset := cellSet_of_not_mem cells p.2.1 p.2.2 hp1
    have hkeys : (cellSet cells p.2.1 p.2.2).map Prod.fst =
        cells.map Prod.fst ++ [p.2.1] := by
      rw [hset, List.map_append]
      rfl
    have hnd2 : (rs.map (fun p => p.2.1)).Nodup :=
      (List.nodup_cons.mp hnd).2
    have hnotin2 : ∀ q ∈ rs, q.2.1 ∉ (cellSet cells p.2.1 p.2.2).map
        Prod.fst := by
      intro q hq
      rw [hkeys]
      intro hmem
      rcases List.mem_append.mp hmem with hm | hm
      · exact hnotin q (List.mem_cons_of_mem _ hq) hm
      · have hqp : q.2.1 = p.2.1 := List.mem_singleton.mp hm
        refine (List.nodup_cons.mp hnd).1 ?_
        have hin : q.2.1 ∈ List.map (fun p => p.2.1) rs :=
          List.mem_map.mpr ⟨q, hq, rfl⟩
        rw [hqp] at hin
        exact hin
    obtain ⟨ih1, ih2, ih3⟩ := foldCells_props rs (cellSet cells p.2.1 p.2.2)
      hnd2 hnotin2
    have hfold : foldCells cells (p :: rs) =
        foldCells (cellSet cells p.2.1 p.2.2) rs := rfl
    refine ⟨?_, ?_, ?_⟩
    · rw [hfold, ih1, hset, cellsSum_append]
      by_cases hw : p.2.1 = "Water"
      · rw [hw, cellsSum_single_water]
        simp [hw]
      · rw [cellsSum_single_ne _ _ hw]
        simp only [List.map_cons, List.sum_cons, if_neg hw]
        ring
    · rw [hfold, ih2, hkeys]
      simp
    · intro ⟨hw, hnw⟩
      rw [hfold]
      refine ih3 ⟨?_, fun q hq => hnw q (List.mem_cons_of_mem _ hq)⟩
      rw [hkeys]
      intro hmem
      rcases List.mem_append.mp hmem with hm | hm
      · exact hw hm
      · exact hnw p (List.mem_cons_self _ _) (List.mem_singleton.mp hm).symm

/-- The sequence of table updates performed by the column loop of one
reaction row. -/
def applyUpdates (t : VolTable) (rowLabel : String)
    (rs : List (String × String × ℚ)) : VolTable :=
  rs.foldl (fun t2 p => setCell t2 rowLabel p.2.1 p.2.2) t

theorem applyUpdates_rows (rowLabel : String) :
    ∀ (rs : List (String × String × ℚ)) (t : VolTable),
      (applyUpdates t rowLabel rs).rows =
        t.rows.map (fun r =>
          if r.label == rowLabel then ⟨r.label, foldCells r.cells rs⟩
          else r)
  | [], t => by
    rw [applyUpdates]
    simp only [List.foldl_nil]
    symm
    refine List.map_id'' ?_ t.rows
    intro r
    by_cases h : r.label == rowLabel
    · rw [if_pos h]
      rfl
    · rw [if_neg h]
  | p :: rs, t => by
    have hstep : applyUpdates t rowLabel (p :: rs) =
        applyUpdates (setCell t rowLabel p.2.1 p.2.2) rowLabel rs := rfl
    rw [hstep, applyUpdates_rows rowLabel rs (setCell t rowLabel p.2.1 p.2.2)]
    rw [setCell]
    dsimp only
    rw [List.map_map]
    refine List.map_congr_left ?_
    intro r _
    by_cases h : r.label == rowLabel
    · simp only [Function.comp, if_pos h]
      rfl
    · simp only [Function.comp, if_neg h]

theorem setCell_rows_of_ne (t : VolTable) (lbl col : String) (v : ℚ)
    (h : ∀ r ∈ t.rows, r.label ≠ lbl) :
    (setCell t lbl col v).rows = t.rows := by
  rw [setCell]
  dsimp only
  refine (List.map_congr_left ?_).trans (List.map_id t.rows)
  intro r hr
  have hne : ¬(r.label == lbl) = true :=
    fun hb => h r hr (beq_iff_eq.mp hb)
  rw [if_neg hne]
  rfl

theorem processCols_eq (src : List SourceEntry) (rowLabel : String) :
    ∀ (cols : List (String × ℚ)) (t : VolTable) (vol : ℚ)
      (last : Option (String × String × ℚ)) t2 vol2 last2,
      processCols src rowLabel cols t vol last = .ok (t2, vol2, last2) →
      ∃ rs, resolvedCols src cols = .ok rs ∧
        t2 = applyUpdates t rowLabel rs ∧
        vol2 = vol + (rs.map (fun p => p.2.2)).sum ∧
        last2 = (match rs.getLast? with
                 | none => last
                 | some p => some (p.2.1, p.1, p.2.2))
  | [], t, vol, last, t2, vol2, last2, h => by
    rw [processCols] at h
    simp only [Except.ok.injEq, Prod.mk.injEq] at h
    obtain ⟨h1, h2, h3⟩ := h
    exact ⟨[], rfl, h1.symm, by rw [← h2]; simp, by rw [← h3]; rfl⟩
  | (column, conc) :: rest, t, vol, last, t2, vol2, last2, h => by
    rw [processCols] at h
    cases hres : resolve src column conc with
    | error e => rw [hres] at h; cases h
    | ok p =>
      obtain ⟨c, v⟩ := p
      rw [hres] at h
      dsimp only at h
      cases hlab : labelFor src column c with
      | none => rw [hlab] at h; cases h
      | some l =>
        rw [hlab] at h
        dsimp only at h
        obtain ⟨rs, hrs, ht2, hvol2, hlast2⟩ := processCols_eq src rowLabel
          rest (setCell t rowLabel l v) (vol + v) (some (l, column, v))
          t2 vol2 last2 h
        refine ⟨(column, l, v) :: rs, ?_, ?_, ?_, ?_⟩
        · rw [resolvedCols, hres]
          dsimp only
          rw [hlab]
          dsimp only
          rw [hrs]
        · exact ht2
        · rw [hvol2]
          simp only [List.map_cons, List.sum_cons]
          ring
        · rw [hlast2]
          cases hrl : rs.getLast? with
          | none =>
            have hrs0 : rs = [] := by
              cases rs with
              | nil => rfl
              | cons a as =>
                rw [List.getLast?_eq_getLast (a :: as) (by simp)] at hrl
                cases hrl
            rw [hrs0]
            rfl
          | some q =>
            have hq : ((column, l, v) :: rs).getLast? = some q := by
              cases rs with
              | nil => cases hrl
              | cons a as => rw [List.getLast?_cons_cons, hrl]
            rw [hq]

theorem labelFor_spec (src : List SourceEntry) (column : String) (c : ℚ)
    (l : String) (h : labelFor src column c = some l) :
    ∃ e ∈ src, e.key = column ∧ e.label = l := by
  rw [labelFor] at h
  cases hf : src.find? (fun e => e.concentration == c && e.key == column) with
  | none => rw [hf] at h; cases h
  | some e =>
    rw [hf] at h
    have hmem := List.mem_of_find?_eq_some hf
    have hp := List.find?_some hf
    simp only [Bool.and_eq_true, beq_iff_eq] at hp
    have hl : e.label = l := by
      simpa using h
    exact ⟨e, hmem, hp.2, hl⟩

theorem label_inj (src : List SourceEntry)
    (hlab : (src.map (fun e => e.label)).Nodup) :
    ∀ a ∈ src, ∀ b ∈ src, a.label = b.label → a = b :=
  fun a ha b hb hab => List.inj_on_of_nodup_map hlab ha hb hab

theorem resolvedCols_fst (src : List SourceEntry) :
    ∀ (cols : List (String × ℚ)) rs,
      resolvedCols src cols = .ok rs →
      rs.map Prod.fst = cols.map Prod.fst
  | [], rs, h => by
    rw [resolvedCols] at h
    simp only [Except.ok.injEq] at h
    rw [← h]
    rfl
  | (column, conc) :: rest, rs, h => by
    rw [resolvedCols] at h
    cases hres : resolve src column conc with
    | error e => rw [hres] at h; cases h
    | ok p =>
      obtain ⟨c, v⟩ := p
      rw [hres] at h
      dsimp only at h
      cases hlab : labelFor src column c with
      | none => rw [hlab] at h; cases h
      | some l =>
        rw [hlab] at h
        dsimp only at h
        cases hrec : resolvedCols src rest with
        | error e => rw [hrec] at h; cases h
        | ok rs2 =>
          rw [hrec] at h
          simp only [Except.ok.injEq] at h
          rw [← h]
          simp only [List.map_cons]
          rw [resolvedCols_fst src rest rs2 hrec]

theorem resolvedCols_entries (src : List SourceEntry) :
    ∀ (cols : List (String × ℚ)) rs,
      resolvedCols src cols = .ok rs →
      ∀ p ∈ rs, ∃ e ∈ src, e.key = p.1 ∧ e.label = p.2.1
  | [], rs, h => by
    rw [resolvedCols] at h
    simp only [Except.ok.injEq] at h
    rw [← h]
    intro p hp
    cases hp
  | (column, conc) :: rest, rs, h => by
    rw [resolvedCols] at h
    cases hres : resolve src column conc with
    | error e => rw [hres] at h; cases h
    | ok p0 =>
      obtain ⟨c, v⟩ := p0
      rw [hres] at h
      dsimp only at h
      cases hlab : labelFor src column c with
      | none => rw [hlab] at h; cases h
      | some l =>
        rw [hlab] at h
        dsimp only at h
        cases hrec : resolvedCols src rest with
        | error e => rw [hrec] at h; cases h
        | ok rs2 =>
          rw [hrec] at h
          simp only [Except.ok.injEq] at h
          rw [← h]
          intro p hp
          rcases List.mem_cons.mp hp with hp | hp
          · rw [hp]
            exact labelFor_spec src column c l hlab
          · exact resolvedCols_entries src rest rs2 hrec p hp

theorem resolvedCols_labels_nodup (src : List SourceEntry)
    (hlab : (src.map (fun e => e.label)).Nodup) :
    ∀ (cols : List (String × ℚ)) rs,
      (cols.map Prod.fst).Nodup →
      resolvedCols src cols = .ok rs →
      (rs.map (fun p => p.2.1)).Nodup
  | [], rs, _, h => by
    rw [resolvedCols] at h
    simp only [Except.ok.injEq] at h
    rw [← h]
    exact List.nodup_nil
  | (column, conc) :: rest, rs, hnd, h => by
    rw [resolvedCols] at h
    cases hres : resolve src column conc with
    | error e => rw [hres] at h; cases h
    | ok p0 =>
      obtain ⟨c, v⟩ := p0
      rw [hres] at h
      dsimp only at h
      cases hlab2 : labelFor src column c with
      | none => rw [hlab2] at h; cases h
      | some l =>
        rw [hlab2] at h
        dsimp only at h
        cases hrec : resolvedCols src rest with
        | error e => rw [hrec] at h; cases h
        | ok rs2 =>
          rw [hrec] at h
          simp only [Except.ok.injEq] at h
          rw [← h]
          simp only [List.map_cons]
          rw [List.nodup_cons]
          constructor
          · intro hmem
            obtain ⟨p, hp, hpl⟩ := List.mem_map.mp hmem
            obtain ⟨e1, he1, hk1, hl1⟩ := labelFor_spec src column c l hlab2
            obtain ⟨e2, he2, hk2, hl2⟩ :=
              resolvedCols_entries src rest rs2 hrec p hp
            have he12 : e2 = e1 :=
              label_inj src hlab e2 he2 e1 he1 (by rw [hl2, hl1, hpl])
            have hcol : p.1 = column := by rw [← hk2, he12, hk1]
            have hkeys := resolvedCols_fst src rest rs2 hrec
            have hmem2 : column ∈ rest.map Prod.fst := by
              rw [← hkeys, ← hcol]
              exact List.mem_map.mpr ⟨p, hp, rfl⟩
            exact (List.nodup_cons.mp hnd).1 hmem2
          · exact resolvedCols_labels_nodup src hlab rest rs2
              (List.nodup_cons.mp hnd).2 hrec

theorem resolvedCols_no_water (src : List SourceEntry)
    (hwater : "Water" ∉ src.map (fun e => e.label))
    (cols : List (String × ℚ)) (rs : List (String × String × ℚ))
    (h : resolvedCols src cols = .ok rs) :
    ∀ p ∈ rs, p.2.1 ≠ "Water" := by
  intro p hp hw
  obtain ⟨e, he, _, hl⟩ := resolvedCols_entries src cols rs h p hp
  exact hwater (List.mem_map.mpr ⟨e, he, by rw [hl, hw]⟩)

theorem processRows_good (src : List SourceEntry)
    (hlab : (src.map (fun e => e.label)).Nodup)
    (hwater : "Water" ∉ src.map (fun e => e.label)) :
    ∀ (mix : List (String × List (String × ℚ))) (t : VolTable)
      (last : Option (String × String × ℚ)) (tout : VolTable),
      (mix.map Prod.fst).Nodup →
      (∀ p ∈ mix, (p.2.map Prod.fst).Nodup) →
      (∀ p ∈ mix, p.1 ∉ src.map (fun e => e.label)) →
      (∀ r ∈ t.rows, cellsSum r.cells + waterVal r.cells = 5/2 ∧
        cellsSum r.cells ≤ 5/2) →
      (∀ r ∈ t.rows, r.label ∉ mix.map Prod.fst) →
      (∀ r ∈ t.rows, r.label ∉ src.map (fun e => e.label)) →
      (∀ l c v, last = some (l, c, v) →
        l ∈ src.map (fun e => e.label)) →
      processRows src mix t last = .ok tout →
      ∀ r ∈ tout.rows, cellsSum r.cells + waterVal r.cells = 5/2 ∧
        cellsSum r.cells ≤ 5/2
  | [], t, last, tout, _, _, _, hgood, _, _, _, h => by
    rw [processRows] at h
    simp only [Except.ok.injEq] at h
    rw [← h]
    exact hgood
  | (rowLabel, cols) :: rest, t, last, tout, hids, hkeys, hdisj, hgood,
      hrmix, hrsrc, hlast, h => by
    rw [processRows] at h
    cases hpc : processCols src rowLabel cols (appendRow t rowLabel) 0
        last with
    | error e => rw [hpc] at h; cases h
    | ok trip =>
      obtain ⟨t2, rest2⟩ := trip
      obtain ⟨vol, last2⟩ := rest2
      rw [hpc] at h
      dsimp only at h
      by_cases hvol : 5/2 < vol
      · rw [if_pos hvol] at h
        cases h
      · rw [if_neg hvol] at h
        cases last2 with
        | none =>
          dsimp only at h
          cases h
        | some q =>
          obtain ⟨l, column, v⟩ := q
          dsimp only at h
          obtain ⟨rs, hrs, ht2, hvol2, hlast2⟩ := processCols_eq src
            rowLabel cols (appendRow t rowLabel) 0 last t2 vol
            (some (l, column, v)) hpc
          have hknd : (cols.map Prod.fst).Nodup :=
            hkeys (rowLabel, cols) (List.mem_cons_self _ _)
          have hnd_rs : (rs.map (fun p => p.2.1)).Nodup :=
            resolvedCols_labels_nodup src hlab cols rs hknd hrs
          have hnw_rs : ∀ p ∈ rs, p.2.1 ≠ "Water" :=
            resolvedCols_no_water src hwater cols rs hrs
          have hsrc_rs : ∀ p ∈ rs, p.2.1 ∈ src.map (fun e => e.label) := by
            intro p hp
            obtain ⟨e, he, _, hl⟩ := resolvedCols_entries src cols rs hrs p hp
            exact List.mem_map.mpr ⟨e, he, hl⟩
          have hrowLmix : rowLabel ∈ ((rowLabel, cols) :: rest).map
              Prod.fst := List.mem_cons_self _ _
          have hrneq : ∀ r ∈ t.rows, r.label ≠ rowLabel := by
            intro r hr heq
            exact hrmix r hr (heq ▸ hrowLmix)
          have hmapid : ∀ (f : Row → Row), (∀ r ∈ t.rows, f r = r) →
              t.rows.map f = t.rows :=
            fun f hf => (List.map_congr_left hf).trans (List.map_id t.rows)
          obtain ⟨hsum0, hkeys0, hwat0⟩ := foldCells_props rs []
            hnd_rs (fun p _ => List.not_mem_nil _)
          have hsum0' : cellsSum (foldCells [] rs) =
              (rs.map (fun p => p.2.2)).sum := by
            rw [hsum0]
            have : (rs.map (fun p =>
                if p.2.1 = "Water" then 0 else p.2.2)) =
                rs.map (fun p => p.2.2) :=
              List.map_congr_left (fun p hp => if_neg (hnw_rs p hp))
            rw [this]
            simp [cellsSum]
          have hwat0' : waterVal (foldCells [] rs) = 0 :=
            hwat0 ⟨by simp, hnw_rs⟩
          have hkeys0' : (foldCells [] rs).map Prod.fst =
              rs.map (fun p => p.2.1) := by
            rw [hkeys0]
            rfl
          have hWnotin : "Water" ∉ (foldCells [] rs).map Prod.fst := by
            rw [hkeys0']
            intro hmem
            obtain ⟨p, hp, hpw⟩ := List.mem_map.mp hmem
            exact hnw_rs p hp hpw
          have hg2 : t2.rows = t.rows ++ [⟨rowLabel, foldCells [] rs⟩] := by
            rw [ht2, applyUpdates_rows rowLabel rs (appendRow t rowLabel)]
            rw [appendRow]
            dsimp only
            rw [List.map_append]
            congr 1
            · refine hmapid _ ?_
              intro r hr
              have hne : ¬(r.label == rowLabel) = true :=
                fun hb => hrneq r hr (beq_iff_eq.mp hb)
              rw [if_neg hne]
            · simp
          have hg3 : (setCell t2 rowLabel "Water" (5/2 - vol)).rows =
              t.rows ++ [⟨rowLabel,
                cellSet (foldCells [] rs) "Water" (5/2 - vol)⟩] := by
            rw [setCell]
            dsimp only
            rw [hg2, List.map_append]
            congr 1
            · refine hmapid _ ?_
              intro r hr
              have hne : ¬(r.label == rowLabel) = true :=
                fun hb => hrneq r hr (beq_iff_eq.mp hb)
              rw [if_neg hne]
            · simp
          have hlsrc : l ∈ src.map (fun e => e.label) := by
            cases hgl : rs.getLast? with
            | none =>
              rw [hgl] at hlast2
              exact hlast l column v hlast2.symm
            | some p =>
              rw [hgl] at hlast2
              simp only [Option.some.injEq, Prod.mk.injEq] at hlast2
              obtain ⟨hl1, _, _⟩ := hlast2
              rw [hl1]
              exact hsrc_rs p (List.mem_of_getLast?_eq_some hgl)
          have hg4 : (setCell (setCell t2 rowLabel "Water" (5/2 - vol))
              l column v).rows =
              t.rows ++ [⟨rowLabel,
                cellSet (foldCells [] rs) "Water" (5/2 - vol)⟩] := by
            rw [setCell_rows_of_ne _ l column v, hg3]
            rw [hg3]
            intro r hr
            rcases List.mem_append.mp hr with hr | hr
            · intro heq
              exact hrsrc r hr (heq ▸ hlsrc)
            · have hre0 : r = ⟨rowLabel,
                  cellSet (foldCells [] rs) "Water" (5/2 - vol)⟩ :=
                List.mem_singleton.mp hr
              rw [hre0]
              intro heq
              have hrl : rowLabel = l := heq
              exact hdisj (rowLabel, cols) (List.mem_cons_self _ _)
                (hrl ▸ hlsrc)
          have hcellsW : cellSet (foldCells [] rs) "Water" (5/2 - vol) =
              foldCells [] rs ++ [("Water", 5/2 - vol)] :=
            cellSet_of_not_mem _ _ _ hWnotin
          have hvol' : vol = (rs.map (fun p => p.2.2)).sum := by
            rw [hvol2]
            ring
          have hnewSum : cellsSum (cellSet (foldCells [] rs) "Water"
              (5/2 - vol)) = vol := by
            rw [hcellsW, cellsSum_append, cellsSum_single_water, hsum0',
              hvol']
            ring
          have hnewWat : waterVal (cellSet (foldCells [] rs) "Water"
              (5/2 - vol)) = 5/2 - vol := by
            rw [hcellsW]
            exact waterVal_append_water _ _ hWnotin
          refine processRows_good src hlab hwater rest _
            (some (l, column, v)) tout
            (List.nodup_cons.mp hids).2
            (fun p hp => hkeys p (List.mem_cons_of_mem _ hp))
            (fun p hp => hdisj p (List.mem_cons_of_mem _ hp))
            ?_ ?_ ?_ ?_ h
          · rw [hg4]
            intro r hr
            rcases List.mem_append.mp hr with hr | hr
            · exact hgood r hr
            · have hre : r = ⟨rowLabel,
                  cellSet (foldCells [] rs) "Water" (5/2 - vol)⟩ :=
                List.mem_singleton.mp hr
              rw [hre]
              dsimp only
              rw [hnewSum, hnewWat]
              exact ⟨by ring, not_lt.mp hvol⟩
          · rw [hg4]
            intro r hr
            rcases List.mem_append.mp hr with hr | hr
            · exact fun hmem =>
                hrmix r hr (List.mem_cons_of_mem _ hmem)
            · have hre : r = ⟨rowLabel,
                  cellSet (foldCells [] rs) "Water" (5/2 - vol)⟩ :=
                List.mem_singleton.mp hr
              rw [hre]
              dsimp only
              exact (List.nodup_cons.mp hids).1
          · rw [hg4]
            intro r hr
            rcases List.mem_append.mp hr with hr | hr
            · exact hrsrc r hr
            · have hre : r = ⟨rowLabel,
                  cellSet (foldCells [] rs) "Water" (5/2 - vol)⟩ :=
                List.mem_singleton.mp hr
              rw [hre]
              dsimp only
              exact hdisj (rowLabel, cols) (List.mem_cons_self _ _)
          · intro l2 c2 v2 heq
            simp only [Option.some.injEq, Prod.mk.injEq] at heq
            obtain ⟨h1, _, _⟩ := heq
            rw [← h1]
            exact hlsrc

/-- Amended C1: a run that survives line 84 (no duplicated reaction id or
reagent column — a duplicate makes `float(...)` crash on a Series and no
table is produced) yields rows satisfying the closure invariant, provided no
reaction identifier equals a source-inventory label (otherwise line 103's
stray masked write adds a spurious cell to that reaction's row) and no source
entry is labelled `Water` (otherwise line 102 overwrites the reagent volume
recorded in the `Water` column at line 94).  The source labels are assumed
pairwise distinct, the regime in which one cell per label faithfully models
the pandas columns.  Then every row of the produced table satisfies: sum of
reagent cells + `Water` cell = 2.5 exactly, and the sum of the reagent cells
alone is at most 2.5. -/
theorem generateVolumeTable_closure
    (mix : List (String × List (String × ℚ))) (src : List SourceEntry)
    (t : VolTable)
    (hlab : (src.map (fun e => e.label)).Nodup)
    (hdisj : ∀ p ∈ mix, p.1 ∉ src.map (fun e => e.label))
    (hwater : "Water" ∉ src.map (fun e => e.label))
    (hok : generateVolumeTable mix src = .ok t) :
    ∀ r ∈ t.rows, cellsSum r.cells + waterVal r.cells = 5/2 ∧
      cellsSum r.cells ≤ 5/2 := by
  rw [generateVolumeTable] at hok
  by_cases hdup : (mix.map Prod.fst).Nodup ∧
      ∀ p ∈ mix, (p.2.map Prod.fst).Nodup
  · rw [if_pos hdup] at hok
    refine processRows_good src hlab hwater mix
      ⟨src.map (fun e => e.label), []⟩ none t hdup.1 hdup.2 hdisj
      ?_ ?_ ?_ ?_ hok
    · intro r hr
      cases hr
    · intro r hr
      cases hr
    · intro r hr
      cases hr
    · intro l c v hl
      cases hl
  · rw [if_neg hdup] at hok
    cases hok

/-- Witness for amended C1: one reaction `R` with one reagent resolving to
volume 1/2 yields the row `A = 1/2`, `Water = 2`, closing to 2.5. -/
theorem generateVolumeTable_closure_witness :
    cellsSum [("A", (1/2 : ℚ)), ("Water", 2)] +
      waterVal [("A", (1/2 : ℚ)), ("Water", 2)] = 5/2 ∧
    cellsSum [("A", (1/2 : ℚ)), ("Water", 2)] ≤ 5/2 :=
  generateVolumeTable_closure [("R", [("k1", 5)])]
    [⟨"k1", "A", ["W1"], 100, [10]⟩]
    ⟨["A", "Water", "k1"], [⟨"R", [("A", 1/2), ("Water", 2)]⟩]⟩
    (by decide) (by decide) (by decide) (by decide)
    ⟨"R", [("A", 1/2), ("Water", 2)]⟩ (by decide)

/-- Counterexample to C1 as stated, through two failure routes the program
really takes.  (i) A reaction named like a source label (`A`): after the row
closes (`A = 1/2`, `Water = 2`), line 103's stray masked write
`vol_table_df.loc[vol_table_df['Label'] == label, column] = vol_to_add`
targets the reaction row named `A` and adds a spurious cell `k1 = 1/2` under
the mixing-column name, so the produced row sums to 1/2 + 2 + 1/2 = 3, not
2.5.  (ii) A source entry labelled `Water`: line 94 records its resolved
volume 1/2 in the `Water` column and line 102 then overwrites that cell with
the diluent 2, so the produced row sums to 0 + 2 = 2, not 2.5.  Both runs
return a table without error. -/
theorem generateVolumeTable_closure_cex :
    (generateVolumeTable [("A", [("k1", 5)])]
        [⟨"k1", "A", ["W1"], 100, [10]⟩] =
      .ok ⟨["A", "Water", "k1"],
           [⟨"A", [("A", 1/2), ("Water", 2), ("k1", 1/2)]⟩]⟩) ∧
    cellsSum [("A", (1/2 : ℚ)), ("Water", 2), ("k1", 1/2)] +
      waterVal [("A", (1/2 : ℚ)), ("Water", 2), ("k1", 1/2)] = 3 ∧
    (generateVolumeTable [("R", [("kW", 5)])]
        [⟨"kW", "Water", ["W9"], 100, [30]⟩] =
      .ok ⟨["Water", "kW"], [⟨"R", [("Water", 2)]⟩]⟩) ∧
    cellsSum [("Water", (2 : ℚ))] + waterVal [("Water", (2 : ℚ))] = 2 ∧
    (3 : ℚ) ≠ 5/2 ∧ (2 : ℚ) ≠ 5/2 := by
  decide
